import Mathlib

namespace Dashboard

/-- Lexicographic comparison of character lists by code point. -/
def lexLe : List Char → List Char → Bool
  | [], _ => true
  | _ :: _, [] => false
  | a :: as, b :: bs =>
    if a.toNat < b.toNat then true
    else if b.toNat < a.toNat then false
    else lexLe as bs

/-- Code-point lexicographic order on strings, as Python sorted() uses. -/
def strLeB (a b : String) : Bool := lexLe a.toList b.toList

theorem lexLe_total : ∀ a b, lexLe a b ∨ lexLe b a := by
  intro a
  induction a with
  | nil => intro b; left; rfl
  | cons x xs ih =>
    intro b
    cases b with
    | nil => right; rfl
    | cons y ys =>
      by_cases hxy : x.toNat < y.toNat
      · left; simp [lexLe, hxy]
      · by_cases hyx : y.toNat < x.toNat
        · right; simp [lexLe, hyx]
        · rcases ih ys with h | h
          · left; simp [lexLe, hxy, hyx, h]
          · right; simp [lexLe, hxy, hyx, h]

theorem lexLe_trans : ∀ a b c, lexLe a b → lexLe b c → lexLe a c := by
  intro a
  induction a with
  | nil => intro b c _ _; rfl
  | cons x xs ih =>
    intro b c hab hbc
    cases b with
    | nil => simp [lexLe] at hab
    | cons y ys =>
      cases c with
      | nil => simp [lexLe] at hbc
      | cons z zs =>
        simp only [lexLe] at hab hbc ⊢
        rcases Nat.lt_trichotomy x.toNat y.toNat with h1 | h1 | h1 <;>
          rcases Nat.lt_trichotomy y.toNat z.toNat with h2 | h2 | h2
        · simp [show x.toNat < z.toNat by omega]
        · simp [show x.toNat < z.toNat by omega]
        · rw [if_neg (by omega), if_pos h2] at hbc; simp at hbc
        · simp [show x.toNat < z.toNat by omega]
        · rw [if_neg (by omega), if_neg (by omega)] at hab
          rw [if_neg (by omega), if_neg (by omega)] at hbc
          rw [if_neg (by omega), if_neg (by omega)]
          exact ih ys zs hab hbc
        · rw [if_neg (by omega), if_pos h2] at hbc; simp at hbc
        · rw [if_neg (by omega), if_pos h1] at hab; simp at hab
        · rw [if_neg (by omega), if_pos h1] at hab; simp at hab
        · rw [if_neg (by omega), if_pos h1] at hab; simp at hab

instance : IsTotal String (fun a b => strLeB a b) :=
  ⟨fun a b => by simpa [strLeB] using lexLe_total a.toList b.toList⟩

instance : IsTrans String (fun a b => strLeB a b) :=
  ⟨fun a b c hab hbc => by
    simp only [strLeB] at *
    exact lexLe_trans _ _ _ (by simpa using hab) (by simpa using hbc)⟩

/-- Whitespace test modelling the character class of Python str.strip. -/
def isSpaceChar (c : Char) : Bool :=
  c = ' ' || c = '\t' || c = '\n' || c = '\r' || c = '\x0b' || c = '\x0c'

/-- Strip a predicate-satisfying run from both ends of a list. -/
def stripL (p : α → Bool) (l : List α) : List α :=
  ((l.dropWhile p).reverse.dropWhile p).reverse

/-- Model of Python str.strip(): drop whitespace from both ends. -/
def pyStrip (s : String) : String := ⟨stripL isSpaceChar s.toList⟩

/-- Numeric value of a digit character. -/
def digitVal (c : Char) : ℕ := c.toNat - 48

/-- Decimal digit test. -/
def isDigitChar (c : Char) : Bool := decide (48 ≤ c.toNat ∧ c.toNat ≤ 57)

/-- Value of a big-endian digit string. -/
def natOfDigits (l : List Char) : ℕ := l.foldl (fun acc c => 10 * acc + digitVal c) 0

/-- Split an optional leading sign off a numeral; true means negative. -/
def parseSign : List Char → Bool × List Char
  | '-' :: rest => (true, rest)
  | '+' :: rest => (false, rest)
  | l => (false, l)

/-- Model of the numeric parsing done by pd.to_numeric on a text cell:
an optional sign, then digits with an optional decimal point (at least one
digit overall).  Anything else fails to parse. -/
def parseRat (s : String) : Option ℚ :=
  let sg := parseSign s.toList
  let intPart := sg.2.takeWhile isDigitChar
  let rest := sg.2.dropWhile isDigitChar
  let mag : Option ℚ :=
    match rest with
    | [] => if intPart = [] then none else some (natOfDigits intPart : ℚ)
    | '.' :: frac =>
      if frac.all isDigitChar ∧ (intPart ≠ [] ∨ frac ≠ []) then
        some ((natOfDigits intPart : ℚ) + (natOfDigits frac : ℚ) / ((10 : ℚ) ^ frac.length))
      else none
    | _ => none
  mag.map fun q => if sg.1 then -q else q

/-- A spreadsheet cell as pandas sees it: a number, a text value, or an
empty cell (NaN). -/
inductive Cell where
  | num (q : ℚ)
  | str (s : String)
  | blank
deriving DecidableEq

/-- Rendering of a rational as text (abstraction of Python str() on a
number; only its behaviour on text and blank cells matters to the claims). -/
def ratToStr (q : ℚ) : String :=
  if q.den = 1 then toString q.num else toString q.num ++ "/" ++ toString q.den

/-- Model of pandas astype(str) on one cell; a NaN cell renders as "nan". -/
def cellToString : Cell → String
  | .num q => ratToStr q
  | .str s => s
  | .blank => "nan"

/-- Model of pd.to_numeric(errors="coerce").fillna(0) on one cell. -/
def coerceNum : Cell → ℚ
  | .num q => q
  | .str s => (parseRat s).getD 0
  | .blank => 0

/-- Truncation toward zero, as numpy astype(int) applies to a float. -/
def ratTrunc (q : ℚ) : ℤ := q.num.tdiv (q.den : ℤ)

/-- Model of pd.to_numeric(errors="coerce").fillna(0).astype(int) on one cell. -/
def coerceInt (c : Cell) : ℤ := ratTrunc (coerceNum c)

/-- Model of astype(str).str.strip() on one cell. -/
def coerceStr (c : Cell) : String := pyStrip (cellToString c)

/-- One normalized row of the dashboard's data, after ingestion coercion
(src/app_matplotlib.py lines 110-118). -/
structure Record where
  month : String
  brand : String
  destination : String
  spent_gbp : ℚ
  leads : ℤ
  messages : ℤ
  impressions : ℤ
  converted_leads : ℤ
deriving DecidableEq

/-- safe_div from src/app_matplotlib.py lines 181-182: n / d unless the
denominator is zero, in which case exactly 0. -/
def safe_div (n d : ℚ) : ℚ := if d = 0 then 0 else n / d

/-- Per-row cost per lead (src/app_matplotlib.py line 184). -/
def rowCpl (r : Record) : ℚ := safe_div r.spent_gbp (r.leads : ℚ)

/-- Per-row conversion rate (src/app_matplotlib.py line 185). -/
def rowConversionRate (r : Record) : ℚ := safe_div (r.converted_leads : ℚ) (r.leads : ℚ)

/-- The header alias table of src/app_matplotlib.py lines 79-92. -/
def mplRenameMap : List (String × String) :=
  [("Month", "month"),
   ("Brand", "brand"),
   ("Destination", "destination"),
   ("Spent (GBP)", "spent_gbp"),
   ("Spend (GBP)", "spent_gbp"),
   ("Spent", "spent_gbp"),
   ("Spend", "spent_gbp"),
   ("Leads", "leads"),
   ("Messages", "messages"),
   ("Impressions", "impressions"),
   ("Converted Leads", "converted_leads"),
   ("Converted", "converted_leads")]

/-- The header alias table of src/app_plotly_pandas.py lines 47-53. -/
def plotlyRenameMap : List (String × String) :=
  [("Brand", "brand"),
   ("Destination", "destination"),
   ("Leads", "leads"),
   ("Spent (GBP)", "spent_gbp"),
   ("Month", "month")]

/-- Header resolution in app_matplotlib: strip surrounding whitespace
(line 76), then rename through the alias table, leaving unmatched headers
unchanged (line 93). -/
def resolveMpl (h : String) : String :=
  (mplRenameMap.lookup (pyStrip h)).getD (pyStrip h)

/-- Header resolution in app_plotly_pandas (lines 44-53). -/
def resolvePlotly (h : String) : String :=
  (plotlyRenameMap.lookup (pyStrip h)).getD (pyStrip h)

/-- Raw tabular input: a header row and data rows of cells. -/
structure Table where
  headers : List String
  rows : List (List Cell)

/-- The matplotlib app's resolved column names for a table. -/
def mplResolvedHeaders (t : Table) : List String := t.headers.map resolveMpl

/-- The plotly app's resolved column names for a table. -/
def plotlyResolvedHeaders (t : Table) : List String := t.headers.map resolvePlotly

/-- The required canonical columns, in sorted order, so that filtering it
models Python's sorted(missing) (src/app_matplotlib.py lines 95-98). -/
def requiredColsSorted : List String :=
  ["brand", "destination", "leads", "month", "spent_gbp"]

/-- The sorted list of required canonical columns that the matplotlib app
cannot resolve for a table (lines 95-98). -/
def mplMissing (t : Table) : List String :=
  requiredColsSorted.filter fun c => c ∉ mplResolvedHeaders t

/-- The sorted list of required canonical columns that the plotly app
cannot resolve for a table (src/app_plotly_pandas.py lines 55-58). -/
def plotlyMissing (t : Table) : List String :=
  requiredColsSorted.filter fun c => c ∉ plotlyResolvedHeaders t

/-- Index of the first column resolving to a canonical name. -/
def colIdx (t : Table) (name : String) : Option ℕ :=
  (mplResolvedHeaders t).findIdx? (· == name)

/-- The cell of a row in a given column position (blank when absent). -/
def cellAt (row : List Cell) : Option ℕ → Cell
  | some i => row.getD i .blank
  | none => .blank

/-- The cell of a row in an optional column: absent optional columns are
synthesized as the constant 0 (src/app_matplotlib.py lines 102-107). -/
def optCellAt (t : Table) (row : List Cell) (name : String) : Cell :=
  match colIdx t name with
  | some i => row.getD i .blank
  | none => .num 0

/-- Build one Record from one table row, applying the type coercions of
src/app_matplotlib.py lines 110-118. -/
def mkRecord (t : Table) (row : List Cell) : Record where
  month := coerceStr (cellAt row (colIdx t "month"))
  brand := coerceStr (cellAt row (colIdx t "brand"))
  destination := coerceStr (cellAt row (colIdx t "destination"))
  spent_gbp := coerceNum (cellAt row (colIdx t "spent_gbp"))
  leads := coerceInt (cellAt row (colIdx t "leads"))
  messages := coerceInt (optCellAt t row "messages")
  impressions := coerceInt (optCellAt t row "impressions")
  converted_leads := coerceInt (optCellAt t row "converted_leads")

/-- Ingestion for the matplotlib app (src/app_matplotlib.py lines 75-118):
strip and rename headers, stop with the sorted missing-column list when a
required column is unresolved, otherwise coerce every row to a Record. -/
def mplIngest (t : Table) : Except (List String) (List Record) :=
  if mplMissing t = [] then .ok (t.rows.map (mkRecord t)) else .error (mplMissing t)

/-- The twelve canonical month names (src/app_matplotlib.py lines 125-128). -/
def monthOrder : List String :=
  ["January", "February", "March", "April", "May", "June",
   "July", "August", "September", "October", "November", "December"]

/-- Distinct values sorted lexicographically, as Python
sorted(series.unique()) produces. -/
def sortedDedup (l : List String) : List String :=
  l.dedup.insertionSort fun a b => strLeB a b

/-- Month selector contents of the matplotlib app (lines 130-132): the
canonical months that occur in the data, falling back to the sorted
distinct values only when no canonical month occurs at all. -/
def availableMonths (months : List String) : List String :=
  let canon := monthOrder.filter fun m => m ∈ months
  if canon = [] then sortedDedup months else canon

/-- Month selector contents of the plotly app (src/app_plotly_pandas.py
lines 74-83): the month column is first made Categorical over the twelve
canonical names, turning every other value into NaN, which dropna then
removes. -/
def plotlyAvailableMonths (months : List String) : List String :=
  let canonMonths := months.filter fun m => m ∈ monthOrder
  let canon := monthOrder.filter fun m => m ∈ canonMonths
  if canon = [] then sortedDedup canonMonths else canon

/-- The subset of rows for a selected month (line 135). -/
def filterMonth (rs : List Record) (m : String) : List Record :=
  rs.filter fun r => r.month = m

/-- Brand selector contents (line 137): "All" then the sorted distinct
brands of the month-narrowed subset. -/
def brandOptions (rs : List Record) (m : String) : List String :=
  "All" :: sortedDedup ((filterMonth rs m).map Record.brand)

/-- Brand narrowing (lines 138-139): the "All" sentinel means no filter. -/
def narrowBrand (rs : List Record) (b : String) : List Record :=
  if b = "All" then rs else rs.filter fun r => r.brand = b

/-- Destination selector contents (line 141): "All" then the sorted
distinct destinations of the month-and-brand-narrowed subset. -/
def destOptions (rs : List Record) (m b : String) : List String :=
  "All" :: sortedDedup ((narrowBrand (filterMonth rs m) b).map Record.destination)

/-- Destination narrowing (lines 142-143). -/
def narrowDestination (rs : List Record) (d : String) : List Record :=
  if d = "All" then rs else rs.filter fun r => r.destination = d

/-- One caller-supplied row of the data editor: the editor's text columns
hold strings, its numeric columns hold arbitrary cells. -/
structure EditRow where
  month : String
  brand : String
  destination : String
  spent_gbp : Cell
  leads : Cell
  messages : Cell
  impressions : Cell
  converted_leads : Cell
deriving DecidableEq

/-- Post-edit cleaning (src/app_matplotlib.py lines 172-176): the five
numeric columns are re-coerced exactly as at ingestion; the string columns
are not touched by these lines. -/
def editClean (e : EditRow) : Record where
  month := e.month
  brand := e.brand
  destination := e.destination
  spent_gbp := coerceNum e.spent_gbp
  leads := coerceInt e.leads
  messages := coerceInt e.messages
  impressions := coerceInt e.impressions
  converted_leads := coerceInt e.converted_leads

/-- The edit stage over a whole replacement row set (rows may have been
added, removed or changed). -/
def editStage (es : List EditRow) : List Record := es.map editClean

/-- One aggregate row produced by a group-by: the key, the four summed
measures, and the two ratios re-derived from the sums. -/
structure AggRow (K : Type) where
  key : K
  spent_gbp : ℚ
  leads : ℤ
  converted_leads : ℤ
  impressions : ℤ
  cpl : ℚ
  conversion_rate : ℚ
deriving DecidableEq

/-- Model of d.groupby(key).agg(sum of the four measures) followed by the
safe-division re-derivation of cpl and conversion_rate
(src/app_matplotlib.py lines 249-256 and 259-266): one output row per
distinct key value, keys in sorted order as pandas groupby yields them. -/
def aggBy {K : Type} [DecidableEq K] (le : K → K → Bool) (key : Record → K)
    (rs : List Record) : List (AggRow K) :=
  (((rs.map key).dedup).insertionSort fun a b => le a b).map fun k =>
    let g := rs.filter fun r => key r = k
    let s := (g.map Record.spent_gbp).sum
    let l := (g.map Record.leads).sum
    let c := (g.map Record.converted_leads).sum
    let i := (g.map Record.impressions).sum
    { key := k, spent_gbp := s, leads := l, converted_leads := c, impressions := i,
      cpl := safe_div s (l : ℚ), conversion_rate := safe_div (c : ℚ) (l : ℚ) }

/-- Company-wise aggregation (src/app_matplotlib.py lines 249-256). -/
def by_brand (rs : List Record) : List (AggRow String) := aggBy strLeB Record.brand rs

/-- Destination-wise aggregation (src/app_matplotlib.py lines 259-266). -/
def by_dest (rs : List Record) : List (AggRow String) := aggBy strLeB Record.destination rs

/-- Lexicographic order on string pairs, as pandas sorts a two-column
group-by key. -/
def pairLeB (a b : String × String) : Bool :=
  if a.1 = b.1 then strLeB a.2 b.2 else strLeB a.1 b.1

/-- Brand-and-destination aggregation over the same record model (the
pair-key instance of the group-by pattern; src/app_plotly_pandas.py
lines 229-233 group by ["brand", "destination"]). -/
def by_brand_dest (rs : List Record) : List (AggRow (String × String)) :=
  aggBy pairLeB (fun r => (r.brand, r.destination)) rs

/-- Total spend KPI (src/app_matplotlib.py line 188). -/
def totalSpend (rs : List Record) : ℚ := (rs.map Record.spent_gbp).sum

/-- Total leads KPI (line 189). -/
def totalLeads (rs : List Record) : ℤ := (rs.map Record.leads).sum

/-- Total messages KPI (line 190). -/
def totalMessages (rs : List Record) : ℤ := (rs.map Record.messages).sum

/-- Total impressions KPI (line 191). -/
def totalImpressions (rs : List Record) : ℤ := (rs.map Record.impressions).sum

/-- Total converted leads (line 192). -/
def totalConverted (rs : List Record) : ℤ := (rs.map Record.converted_leads).sum

/-- Overall cost per lead KPI (line 194). -/
def overallCpl (rs : List Record) : ℚ := safe_div (totalSpend rs) ((totalLeads rs : ℚ))

/-- Overall conversion rate KPI (line 195). -/
def overallCr (rs : List Record) : ℚ :=
  safe_div ((totalConverted rs : ℚ)) ((totalLeads rs : ℚ))

/-- Header row written by edited.to_csv (src/app_matplotlib.py line 216):
the eight canonical columns in frame order plus the two derived columns
appended at lines 184-185. -/
def exportHeaders : List String :=
  ["month", "brand", "destination", "spent_gbp", "leads",
   "messages", "impressions", "converted_leads", "cpl", "conversion_rate"]

/-- One CSV data row of the export: strings written verbatim, numbers
written in full precision. -/
def exportRow (r : Record) : List Cell :=
  [.str r.month, .str r.brand, .str r.destination, .num r.spent_gbp,
   .num (r.leads : ℚ), .num (r.messages : ℚ), .num (r.impressions : ℚ),
   .num (r.converted_leads : ℚ), .num (rowCpl r), .num (rowConversionRate r)]

/-- The CSV export of a record set as a table (line 216). -/
def exportCSV (rs : List Record) : Table :=
  ⟨exportHeaders, rs.map exportRow⟩

/-- A record with its three string fields trimmed, which is what one
export/import cycle produces. -/
def trimRecord (r : Record) : Record :=
  { r with month := pyStrip r.month, brand := pyStrip r.brand,
           destination := pyStrip r.destination }

/-- The eight canonical field names that record construction reads. -/
def canonicalFields : List String :=
  ["month", "brand", "destination", "spent_gbp", "leads",
   "messages", "impressions", "converted_leads"]

/-- Append one extra column (header and one cell per row) to a table. -/
def appendCol (t : Table) (h : String) (cs : List Cell) : Table :=
  ⟨t.headers ++ [h], t.rows.zipWith (fun row c => row ++ [c]) cs⟩

theorem head?_dropWhile_not (p : α → Bool) :
    ∀ (l : List α) (a : α), (l.dropWhile p).head? = some a → ¬ p a := by
  intro l
  induction l with
  | nil => intro a h; simp [List.dropWhile] at h
  | cons x xs ih =>
    intro a h
    rw [List.dropWhile_cons] at h
    by_cases hx : p x
    · exact ih a (by simpa [hx] using h)
    · simp [hx] at h; subst h; exact hx

theorem dropWhile_eq_self_of_head (p : α → Bool) (l : List α)
    (h : ∀ a, l.head? = some a → ¬ p a) : l.dropWhile p = l := by
  cases l with
  | nil => rfl
  | cons x xs =>
    have := h x rfl
    simp [List.dropWhile_cons, this]

theorem stripL_head_not (p : α → Bool) (l : List α) (a : α)
    (h : (stripL p l).head? = some a) : ¬ p a := by
  rw [stripL, List.head?_reverse] at h
  rcases List.dropWhile_suffix (l := (l.dropWhile p).reverse) p with ⟨pre, hpre⟩
  have hne : (l.dropWhile p).reverse.dropWhile p ≠ [] := by
    intro hnil; rw [hnil] at h; simp at h
  have hlast : (l.dropWhile p).reverse.getLast? = some a := by
    rw [← hpre, List.getLast?_append_of_ne_nil pre hne]
    exact h
  rw [List.getLast?_reverse] at hlast
  exact head?_dropWhile_not p l a hlast

theorem stripL_getLast_not (p : α → Bool) (l : List α) (a : α)
    (h : (stripL p l).getLast? = some a) : ¬ p a := by
  rw [stripL, List.getLast?_reverse] at h
  exact head?_dropWhile_not p _ a h

theorem stripL_idem (p : α → Bool) (l : List α) :
    stripL p (stripL p l) = stripL p l := by
  have h1 : (stripL p l).dropWhile p = stripL p l :=
    dropWhile_eq_self_of_head p _ fun a ha => stripL_head_not p l a ha
  have h2 : (stripL p l).reverse.dropWhile p = (stripL p l).reverse :=
    dropWhile_eq_self_of_head p _ fun a ha => by
      rw [List.head?_reverse] at ha
      exact stripL_getLast_not p l a ha
  show ((((stripL p l).dropWhile p).reverse).dropWhile p).reverse = stripL p l
  rw [h1, h2, List.reverse_reverse]

theorem pyStrip_idem (s : String) : pyStrip (pyStrip s) = pyStrip s :=
  congrArg String.mk (stripL_idem isSpaceChar s.toList)

theorem trimRecord_idem (r : Record) : trimRecord (trimRecord r) = trimRecord r := by
  simp [trimRecord, pyStrip_idem]

theorem mem_sortKeys {K : Type} [DecidableEq K] (le : K → K → Bool) (l : List K) (k : K) :
    (k ∈ l.dedup.insertionSort fun a b => le a b) ↔ k ∈ l := by
  rw [(List.perm_insertionSort _ _).mem_iff]
  exact List.mem_dedup

theorem nodup_sortKeys {K : Type} [DecidableEq K] (le : K → K → Bool) (l : List K) :
    (l.dedup.insertionSort fun a b => le a b).Nodup :=
  (List.perm_insertionSort _ _).nodup_iff.mpr (List.nodup_dedup l)

theorem mem_sortedDedup (l : List String) (x : String) : x ∈ sortedDedup l ↔ x ∈ l :=
  mem_sortKeys strLeB l x

theorem nodup_sortedDedup (l : List String) : (sortedDedup l).Nodup :=
  nodup_sortKeys strLeB l

theorem sorted_sortedDedup (l : List String) :
    List.Sorted (fun a b => strLeB a b) (sortedDedup l) :=
  List.sorted_insertionSort _ _

theorem sum_map_filter_add {M : Type} [AddCommMonoid M] (p : α → Prop) [DecidablePred p]
    (f : α → M) (l : List α) :
    ((l.filter fun a => p a).map f).sum + ((l.filter fun a => ¬ p a).map f).sum
      = (l.map f).sum := by
  induction l with
  | nil => simp
  | cons x xs ih =>
    by_cases hx : p x
    · simp only [List.filter_cons]
      rw [if_pos (by simpa using hx), if_neg (by simpa using hx)]
      simp only [List.map_cons, List.sum_cons]
      rw [add_assoc, ih]
    · simp only [List.filter_cons]
      rw [if_neg (by simpa using hx), if_pos (by simpa using hx)]
      simp only [List.map_cons, List.sum_cons]
      rw [add_left_comm, ih]

theorem filter_key_of_filter_ne {K : Type} [DecidableEq K] (key : α → K) (k k' : K)
    (hne : k' ≠ k) (l : List α) :
    ((l.filter fun a => ¬ key a = k).filter fun a => key a = k')
      = l.filter fun a => key a = k' := by
  induction l with
  | nil => rfl
  | cons x xs ih =>
    by_cases hxk : key x = k
    · have hx' : ¬ key x = k' := by rw [hxk]; exact fun h => hne h.symm
      simp only [List.filter_cons]
      rw [if_neg (by simpa using hxk), if_neg (by simpa using hx')]
      exact ih
    · simp only [List.filter_cons]
      rw [if_pos (by simpa using hxk)]
      by_cases hxk' : key x = k'
      · simp only [List.filter_cons]
        rw [if_pos (by simpa using hxk'), if_pos (by simpa using hxk'), ih]
      · simp only [List.filter_cons]
        rw [if_neg (by simpa using hxk'), if_neg (by simpa using hxk'), ih]

theorem sum_over_groups {K M : Type} [DecidableEq K] [AddCommMonoid M]
    (key : α → K) (f : α → M) :
    ∀ (ks : List K) (l : List α), ks.Nodup → (∀ a ∈ l, key a ∈ ks) →
      (ks.map fun k => ((l.filter fun a => key a = k).map f).sum).sum = (l.map f).sum := by
  intro ks
  induction ks with
  | nil =>
    intro l _ hcov
    have : l = [] := by
      cases l with
      | nil => rfl
      | cons x xs => exact absurd (hcov x (by simp)) (by simp)
    subst this; rfl
  | cons k ks ih =>
    intro l hnd hcov
    have hnd' : ks.Nodup := hnd.of_cons
    have hk : k ∉ ks := by
      intro hk
      exact (List.nodup_cons.mp hnd).1 hk
    have hcov' : ∀ a ∈ l.filter fun a => ¬ key a = k, key a ∈ ks := by
      intro a ha
      rw [List.mem_filter] at ha
      have := hcov a ha.1
      rcases List.mem_cons.mp this with h | h
      · exact absurd h (by simpa using ha.2)
      · exact h
    have hcong : ∀ k' ∈ ks,
        ((l.filter fun a => key a = k').map f).sum
          = (((l.filter fun a => ¬ key a = k).filter fun a => key a = k').map f).sum := by
      intro k' hk'
      rw [filter_key_of_filter_ne key k k' (fun h => hk (h ▸ hk')) l]
    simp only [List.map_cons, List.sum_cons]
    rw [List.map_congr_left hcong, ih _ hnd' hcov']
    exact sum_map_filter_add (fun a => key a = k) f l

theorem aggBy_map_key {K : Type} [DecidableEq K] (le : K → K → Bool)
    (key : Record → K) (rs : List Record) :
    (aggBy le key rs).map AggRow.key
      = ((rs.map key).dedup).insertionSort fun a b => le a b := by
  rw [aggBy, List.map_map]
  exact List.map_id _

theorem aggBy_key_nodup {K : Type} [DecidableEq K] (le : K → K → Bool)
    (key : Record → K) (rs : List Record) :
    ((aggBy le key rs).map AggRow.key).Nodup := by
  rw [aggBy_map_key]
  exact nodup_sortKeys le _

theorem aggBy_key_mem {K : Type} [DecidableEq K] (le : K → K → Bool)
    (key : Record → K) (rs : List Record) (k : K) :
    (k ∈ (aggBy le key rs).map AggRow.key) ↔ ∃ r ∈ rs, key r = k := by
  rw [aggBy_map_key, mem_sortKeys]
  exact List.mem_map

theorem aggBy_fields {K : Type} [DecidableEq K] (le : K → K → Bool)
    (key : Record → K) (rs : List Record) (a : AggRow K) (ha : a ∈ aggBy le key rs) :
    a.spent_gbp = ((rs.filter fun r => key r = a.key).map Record.spent_gbp).sum ∧
    a.leads = ((rs.filter fun r => key r = a.key).map Record.leads).sum ∧
    a.converted_leads = ((rs.filter fun r => key r = a.key).map Record.converted_leads).sum ∧
    a.impressions = ((rs.filter fun r => key r = a.key).map Record.impressions).sum ∧
    a.cpl = safe_div a.spent_gbp (a.leads : ℚ) ∧
    a.conversion_rate = safe_div (a.converted_leads : ℚ) (a.leads : ℚ) := by
  obtain ⟨k, _, rfl⟩ := List.mem_map.mp ha
  exact ⟨rfl, rfl, rfl, rfl, rfl, rfl⟩

theorem aggBy_cover {K : Type} [DecidableEq K] (le : K → K → Bool)
    (key : Record → K) (rs : List Record) :
    ∀ r ∈ rs, key r ∈ ((rs.map key).dedup).insertionSort fun a b => le a b := by
  intro r hr
  rw [mem_sortKeys]
  exact List.mem_map_of_mem key hr

theorem aggBy_spent_sum {K : Type} [DecidableEq K] (le : K → K → Bool)
    (key : Record → K) (rs : List Record) :
    ((aggBy le key rs).map AggRow.spent_gbp).sum = totalSpend rs := by
  rw [aggBy, List.map_map]
  show ((((rs.map key).dedup).insertionSort fun a b => le a b).map fun k =>
      ((rs.filter fun r => key r = k).map Record.spent_gbp).sum).sum = totalSpend rs
  exact sum_over_groups key Record.spent_gbp _ rs (nodup_sortKeys le _) (aggBy_cover le key rs)

theorem aggBy_leads_sum {K : Type} [DecidableEq K] (le : K → K → Bool)
    (key : Record → K) (rs : List Record) :
    ((aggBy le key rs).map AggRow.leads).sum = totalLeads rs := by
  rw [aggBy, List.map_map]
  show ((((rs.map key).dedup).insertionSort fun a b => le a b).map fun k =>
      ((rs.filter fun r => key r = k).map Record.leads).sum).sum = totalLeads rs
  exact sum_over_groups key Record.leads _ rs (nodup_sortKeys le _) (aggBy_cover le key rs)

theorem aggBy_converted_sum {K : Type} [DecidableEq K] (le : K → K → Bool)
    (key : Record → K) (rs : List Record) :
    ((aggBy le key rs).map AggRow.converted_leads).sum = totalConverted rs := by
  rw [aggBy, List.map_map]
  show ((((rs.map key).dedup).insertionSort fun a b => le a b).map fun k =>
      ((rs.filter fun r => key r = k).map Record.converted_leads).sum).sum = totalConverted rs
  exact sum_over_groups key Record.converted_leads _ rs (nodup_sortKeys le _)
    (aggBy_cover le key rs)

theorem aggBy_impressions_sum {K : Type} [DecidableEq K] (le : K → K → Bool)
    (key : Record → K) (rs : List Record) :
    ((aggBy le key rs).map AggRow.impressions).sum = totalImpressions rs := by
  rw [aggBy, List.map_map]
  show ((((rs.map key).dedup).insertionSort fun a b => le a b).map fun k =>
      ((rs.filter fun r => key r = k).map Record.impressions).sum).sum = totalImpressions rs
  exact sum_over_groups key Record.impressions _ rs (nodup_sortKeys le _)
    (aggBy_cover le key rs)

theorem safe_div_zero (n : ℚ) : safe_div n 0 = 0 := if_pos rfl

theorem safe_div_of_ne (n d : ℚ) (h : d ≠ 0) : safe_div n d = n / d := if_neg h

/-- A row with zero leads but nonzero numerators. -/
def rEx0 : Record := ⟨"January", "A", "X", 10, 0, 0, 0, 5⟩

/-- A row with nonzero leads. -/
def rEx1 : Record := ⟨"January", "A", "X", 10, 2, 0, 0, 1⟩

/-- The single aggregate row of by_brand over [rEx1]. -/
def aEx : AggRow String := ⟨"A", 10, 2, 1, 0, 5, 1/2⟩

/-- C1: for every row (Record or Aggregate) after metric computation, cpl
and conversion_rate are exactly 0 whenever leads is 0, regardless of the
numerator, and are exactly spent_gbp / leads and converted_leads / leads
whenever leads is nonzero. -/
theorem C1_safe_division (r : Record) (K : Type) [DecidableEq K]
    (le : K → K → Bool) (key : Record → K) (rs : List Record)
    (a : AggRow K) (ha : a ∈ aggBy le key rs) :
    (r.leads = 0 → rowCpl r = 0 ∧ rowConversionRate r = 0) ∧
    (r.leads ≠ 0 → rowCpl r = r.spent_gbp / (r.leads : ℚ) ∧
      rowConversionRate r = (r.converted_leads : ℚ) / (r.leads : ℚ)) ∧
    (a.leads = 0 → a.cpl = 0 ∧ a.conversion_rate = 0) ∧
    (a.leads ≠ 0 → a.cpl = a.spent_gbp / (a.leads : ℚ) ∧
      a.conversion_rate = (a.converted_leads : ℚ) / (a.leads : ℚ)) := by
  obtain ⟨_, _, _, _, hcpl, hcr⟩ := aggBy_fields le key rs a ha
  refine ⟨?_, ?_, ?_, ?_⟩
  · intro h0
    rw [rowCpl, rowConversionRate, h0]
    exact ⟨safe_div_zero _, safe_div_zero _⟩
  · intro hne
    have : (r.leads : ℚ) ≠ 0 := by exact_mod_cast hne
    rw [rowCpl, rowConversionRate, safe_div_of_ne _ _ this, safe_div_of_ne _ _ this]
    exact ⟨rfl, rfl⟩
  · intro h0
    rw [hcpl, hcr, h0]
    exact ⟨safe_div_zero _, safe_div_zero _⟩
  · intro hne
    have : (a.leads : ℚ) ≠ 0 := by exact_mod_cast hne
    rw [hcpl, hcr, safe_div_of_ne _ _ this, safe_div_of_ne _ _ this]
    exact ⟨rfl, rfl⟩

/-- Witness for C1 at concrete rows: zero leads with nonzero spend gives 0
metrics; two leads give the exact quotients, also on the aggregate. -/
theorem C1_witness :
    rowCpl rEx0 = 0 ∧ rowConversionRate rEx0 = 0 ∧
    rowCpl rEx1 = (10 : ℚ) / 2 ∧ rowConversionRate rEx1 = (1 : ℚ) / 2 ∧
    aEx.cpl = aEx.spent_gbp / (aEx.leads : ℚ) := by
  have hkeys : (([rEx1].map Record.brand).dedup).insertionSort (fun a b => strLeB a b)
      = ["A"] := by decide
  have heval : aggBy strLeB Record.brand [rEx1] = [aEx] := by
    simp only [aggBy]
    rw [hkeys]
    norm_num [rEx1, aEx, safe_div]
  have hmem : aEx ∈ aggBy strLeB Record.brand [rEx1] := by rw [heval]; simp
  obtain ⟨h0, _, _, hagg⟩ :=
    C1_safe_division rEx0 String strLeB Record.brand [rEx1] aEx hmem
  obtain ⟨_, h1, _, _⟩ :=
    C1_safe_division rEx1 String strLeB Record.brand [rEx1] aEx hmem
  exact ⟨(h0 rfl).1, (h0 rfl).2, (h1 (by decide)).1, (h1 (by decide)).2,
    (hagg (by decide)).1⟩

/-- The discriminating pair of rows from the spec: (spent 10, leads 1) and
(spent 0, leads 0) under one brand. -/
def rC2a : Record := ⟨"March", "A", "X", 10, 1, 0, 0, 0⟩

/-- Companion row with zero spend and zero leads. -/
def rC2b : Record := ⟨"March", "A", "X", 0, 0, 0, 0, 0⟩

/-- C2: aggregation by any key (brand, destination, or the brand and
destination pair) yields exactly one row per distinct key value present,
whose measures are the group sums and whose ratios are re-derived by safe
division from those sums; the rows (10,1) and (0,0) aggregate to cpl 10. -/
theorem C2_aggregation (K : Type) [DecidableEq K] (le : K → K → Bool)
    (key : Record → K) (rs : List Record) :
    ((aggBy le key rs).map AggRow.key).Nodup ∧
    (∀ k : K, (k ∈ (aggBy le key rs).map AggRow.key) ↔ ∃ r ∈ rs, key r = k) ∧
    (∀ a ∈ aggBy le key rs,
      a.spent_gbp = ((rs.filter fun r => key r = a.key).map Record.spent_gbp).sum ∧
      a.leads = ((rs.filter fun r => key r = a.key).map Record.leads).sum ∧
      a.converted_leads
        = ((rs.filter fun r => key r = a.key).map Record.converted_leads).sum ∧
      a.impressions = ((rs.filter fun r => key r = a.key).map Record.impressions).sum ∧
      a.cpl = safe_div a.spent_gbp (a.leads : ℚ) ∧
      a.conversion_rate = safe_div (a.converted_leads : ℚ) (a.leads : ℚ)) ∧
    by_brand [rC2a, rC2b] = [⟨"A", 10, 1, 0, 0, 10, 0⟩] := by
  refine ⟨aggBy_key_nodup le key rs, aggBy_key_mem le key rs,
    fun a ha => aggBy_fields le key rs a ha, ?_⟩
  have hkeys : (([rC2a, rC2b].map Record.brand).dedup).insertionSort
      (fun a b => strLeB a b) = ["A"] := by decide
  simp only [by_brand, aggBy]
  rw [hkeys]
  norm_num [rC2a, rC2b, safe_div]

/-- Witness for C2 at the discriminating input: the single brand row of the
pair sums to spent 10, leads 1, and its cpl is the safe division 10 / 1. -/
theorem C2_witness :
    (("A" ∈ (by_brand [rC2a, rC2b]).map AggRow.key) ↔
      ∃ r ∈ [rC2a, rC2b], r.brand = "A") ∧
    (⟨"A", 10, 1, 0, 0, 10, 0⟩ : AggRow String).cpl
      = safe_div (10 : ℚ) ((1 : ℤ) : ℚ) := by
  obtain ⟨_, hmem, hfields, hconc⟩ :=
    C2_aggregation String strLeB Record.brand [rC2a, rC2b]
  refine ⟨hmem "A", ?_⟩
  simp only [by_brand] at hconc
  have := hfields ⟨"A", 10, 1, 0, 0, 10, 0⟩ (by rw [hconc]; simp)
  exact this.2.2.2.2.1

/-- C10 (implicit): group-by aggregation preserves totals — for every
record set and grouping key, each summed measure over the aggregate rows
equals the KPI total of that measure over the input rows. -/
theorem C10_totals_preserved (K : Type) [DecidableEq K] (le : K → K → Bool)
    (key : Record → K) (rs : List Record) :
    ((aggBy le key rs).map AggRow.spent_gbp).sum = totalSpend rs ∧
    ((aggBy le key rs).map AggRow.leads).sum = totalLeads rs ∧
    ((aggBy le key rs).map AggRow.converted_leads).sum = totalConverted rs ∧
    ((aggBy le key rs).map AggRow.impressions).sum = totalImpressions rs :=
  ⟨aggBy_spent_sum le key rs, aggBy_leads_sum le key rs,
   aggBy_converted_sum le key rs, aggBy_impressions_sum le key rs⟩

/-- An input with every required header except Leads. -/
def tMissingLeads : Table :=
  ⟨["Month", "Brand", "Destination", "Spent (GBP)"], []⟩

/-- A complete single-row input. -/
def tOk : Table :=
  ⟨["Month", "Brand", "Destination", "Spent (GBP)", "Leads"],
   [[.str "March", .str "B", .str "Y", .num 7, .num 2]]⟩

/-- The record ingested from tOk. -/
def rOk : Record := ⟨"March", "B", "Y", 7, 2, 0, 0, 0⟩

/-- C3: ingestion fails — reporting the sorted missing canonical names and
producing no records — exactly when a required canonical column is
unresolved after aliasing; missing only leads reports exactly ["leads"]
(in both apps), and absent optional columns are synthesized as zero. -/
theorem C3_missing_columns (t : Table) :
    ((∃ e, mplIngest t = .error e) ↔
      ∃ c ∈ requiredColsSorted, c ∉ mplResolvedHeaders t) ∧
    (∀ e, mplIngest t = .error e →
      e = requiredColsSorted.filter (fun c => c ∉ mplResolvedHeaders t) ∧
      List.Sorted (fun a b => strLeB a b) e ∧ e ≠ []) ∧
    (∀ recs, mplIngest t = .ok recs →
      (colIdx t "messages" = none → ∀ r ∈ recs, r.messages = 0) ∧
      (colIdx t "impressions" = none → ∀ r ∈ recs, r.impressions = 0) ∧
      (colIdx t "converted_leads" = none → ∀ r ∈ recs, r.converted_leads = 0)) ∧
    mplIngest tMissingLeads = .error ["leads"] ∧
    plotlyMissing tMissingLeads = ["leads"] := by
  have hreqSorted : List.Sorted (fun a b => strLeB a b) requiredColsSorted := by decide
  refine ⟨?_, ?_, ?_, ?_, by decide⟩
  · by_cases hm : mplMissing t = []
    · have hall : ∀ c ∈ requiredColsSorted, c ∈ mplResolvedHeaders t := by
        have := List.filter_eq_nil_iff.mp hm
        intro c hc
        have h2 := this c hc
        simpa using h2
      constructor
      · rintro ⟨e, he⟩
        simp [mplIngest, hm] at he
      · rintro ⟨c, hc, hnot⟩
        exact absurd (hall c hc) hnot
    · constructor
      · intro _
        obtain ⟨c, hc⟩ := List.exists_mem_of_ne_nil _ hm
        simp only [mplMissing, List.mem_filter, decide_eq_true_eq] at hc
        exact ⟨c, hc.1, hc.2⟩
      · intro _
        exact ⟨mplMissing t, by simp [mplIngest, hm]⟩
  · intro e he
    by_cases hm : mplMissing t = []
    · simp [mplIngest, hm] at he
    · simp [mplIngest, hm] at he
      subst he
      exact ⟨rfl, hreqSorted.filter _, hm⟩
  · intro recs hok
    by_cases hm : mplMissing t = []
    · have hrecs : t.rows.map (mkRecord t) = recs := by
        simpa [mplIngest, hm] using hok
      refine ⟨?_, ?_, ?_⟩ <;> intro hnone r hr <;> rw [← hrecs] at hr <;>
        obtain ⟨row, _, rfl⟩ := List.mem_map.mp hr
      · show coerceInt (optCellAt t row "messages") = 0
        rw [optCellAt, hnone]
        show coerceInt (Cell.num 0) = 0
        decide
      · show coerceInt (optCellAt t row "impressions") = 0
        rw [optCellAt, hnone]
        show coerceInt (Cell.num 0) = 0
        decide
      · show coerceInt (optCellAt t row "converted_leads") = 0
        rw [optCellAt, hnone]
        show coerceInt (Cell.num 0) = 0
        decide
    · simp [mplIngest, hm] at hok
  · have hm : mplMissing tMissingLeads = ["leads"] := by decide
    simp [mplIngest, hm]

/-- Witness for C3: the four-column input reports exactly ["leads"], and
the complete input tOk ingests with messages synthesized to zero. -/
theorem C3_witness :
    (["leads"] = requiredColsSorted.filter
      (fun c => c ∉ mplResolvedHeaders tMissingLeads)) ∧ rOk.messages = 0 := by
  have hthm := C3_missing_columns tMissingLeads
  have h1 := (hthm.2.1 ["leads"] hthm.2.2.2.1).1
  have hmiss : mplMissing tOk = [] := by decide
  have hrows : tOk.rows.map (mkRecord tOk) = [rOk] := by decide
  have hok : mplIngest tOk = .ok [rOk] := by
    simp [mplIngest, hmiss, hrows]
  have h2 := ((C3_missing_columns tOk).2.2.1 [rOk] hok).1 (by decide) rOk (by simp)
  exact ⟨h1, h2⟩

/-- An input whose spend cell holds the parseable negative text "-5". -/
def tNeg : Table :=
  ⟨["Month", "Brand", "Destination", "Spent (GBP)", "Leads"],
   [[.str "January", .str "A", .str "X", .str "-5", .num 3]]⟩

/-- The record the matplotlib app ingests from tNeg. -/
def rNeg : Record := ⟨"January", "A", "X", -5, 3, 0, 0, 0⟩

/-- Counterexample to C4: the coercion pipeline does not enforce
non-negativity — a parseable negative cell survives as a negative field. -/
theorem C4_counterexample :
    mplIngest tNeg = .ok [rNeg] ∧ rNeg.spent_gbp < 0 := by
  have hmiss : mplMissing tNeg = [] := by decide
  have hrows : tNeg.rows.map (mkRecord tNeg) = [rNeg] := by decide
  exact ⟨by simp [mplIngest, hmiss, hrows], by decide⟩

/-- A cell whose numeric reading, if any, is non-negative. -/
def cellNonneg (c : Cell) : Bool :=
  match c with
  | .num q => decide (0 ≤ q)
  | .str s =>
    match parseRat s with
    | some q => decide (0 ≤ q)
    | none => true
  | .blank => true

theorem coerceNum_nonneg (c : Cell) (h : cellNonneg c) : 0 ≤ coerceNum c := by
  cases c with
  | num q => simpa [cellNonneg] using h
  | str s =>
    rw [coerceNum]
    cases hp : parseRat s with
    | none => simp
    | some q =>
      simp only [cellNonneg, hp, decide_eq_true_eq] at h
      simpa using h
  | blank => simp [coerceNum]

theorem ratTrunc_nonneg (q : ℚ) (h : 0 ≤ q) : 0 ≤ ratTrunc q :=
  Int.tdiv_nonneg (Rat.num_nonneg.mpr h) (Int.ofNat_nonneg q.den)

theorem coerceInt_nonneg (c : Cell) (h : cellNonneg c) : 0 ≤ coerceInt c :=
  ratTrunc_nonneg _ (coerceNum_nonneg c h)

theorem cellAt_nonneg (row : List Cell) (hrow : ∀ cl ∈ row, cellNonneg cl)
    (i : Option ℕ) : cellNonneg (cellAt row i) := by
  cases i with
  | none => rfl
  | some i =>
    show cellNonneg (row.getD i .blank)
    rw [List.getD]
    cases hg : row.get? i with
    | none => rfl
    | some c => exact hrow c (List.get?_mem hg)

theorem optCellAt_nonneg (t : Table) (row : List Cell)
    (hrow : ∀ cl ∈ row, cellNonneg cl) (name : String) :
    cellNonneg (optCellAt t row name) := by
  rw [optCellAt]
  cases colIdx t name with
  | none => rfl
  | some i => exact cellAt_nonneg row hrow (some i)

/-- C4 amended: coercion never errors — an unparseable or blank cell
becomes exactly 0 (both as a float and as a count), at ingestion and after
edits — and the resulting fields are non-negative whenever every numeric
reading of an input cell is non-negative; a parseable negative cell,
however, is preserved (see the counterexample). -/
theorem C4_coercion_repair (c : Cell) (s : String) (t : Table)
    (recs : List Record) (e : EditRow) :
    (parseRat s = none → coerceNum (.str s) = 0 ∧ coerceInt (.str s) = 0) ∧
    coerceNum .blank = 0 ∧ coerceInt .blank = 0 ∧
    (cellNonneg c → 0 ≤ coerceNum c ∧ 0 ≤ coerceInt c) ∧
    (mplIngest t = .ok recs → (∀ row ∈ t.rows, ∀ cl ∈ row, cellNonneg cl) →
      ∀ r ∈ recs, 0 ≤ r.spent_gbp ∧ 0 ≤ r.leads ∧ 0 ≤ r.messages ∧
        0 ≤ r.impressions ∧ 0 ≤ r.converted_leads) ∧
    (cellNonneg e.spent_gbp → 0 ≤ (editClean e).spent_gbp) ∧
    (cellNonneg e.leads → 0 ≤ (editClean e).leads) ∧
    coerceInt (.str "N/A") = 0 := by
  refine ⟨?_, rfl, by decide, fun h => ⟨coerceNum_nonneg c h, coerceInt_nonneg c h⟩,
    ?_, fun h => coerceNum_nonneg _ h, fun h => coerceInt_nonneg _ h, by decide⟩
  · intro hp
    constructor
    · simp [coerceNum, hp]
    · show ratTrunc (coerceNum (.str s)) = 0
      simp [coerceNum, hp]
      decide
  · intro hok hcells r hr
    by_cases hm : mplMissing t = []
    · have hrecs : t.rows.map (mkRecord t) = recs := by
        simpa [mplIngest, hm] using hok
      rw [← hrecs] at hr
      obtain ⟨row, hrowmem, rfl⟩ := List.mem_map.mp hr
      have hrow := hcells row hrowmem
      exact ⟨coerceNum_nonneg _ (cellAt_nonneg row hrow _),
        coerceInt_nonneg _ (cellAt_nonneg row hrow _),
        coerceInt_nonneg _ (optCellAt_nonneg t row hrow _),
        coerceInt_nonneg _ (optCellAt_nonneg t row hrow _),
        coerceInt_nonneg _ (optCellAt_nonneg t row hrow _)⟩
    · simp [mplIngest, hm] at hok

/-- Witness for C4: the text "N/A" coerces to 0 without error, and the
all-non-negative input tOk yields non-negative fields. -/
theorem C4_witness :
    coerceNum (Cell.str "N/A") = 0 ∧ coerceInt (Cell.str "N/A") = 0 ∧
    0 ≤ rOk.spent_gbp ∧ 0 ≤ rOk.leads := by
  have hmiss : mplMissing tOk = [] := by decide
  have hrows : tOk.rows.map (mkRecord tOk) = [rOk] := by decide
  have hok : mplIngest tOk = .ok [rOk] := by simp [mplIngest, hmiss, hrows]
  have h := C4_coercion_repair (Cell.num 2) "N/A" tOk [rOk]
    ⟨"m", "b", "d", .num 0, .num 0, .num 0, .num 0, .num 0⟩
  have hna := h.1 (by decide)
  have hnn := h.2.2.2.2.1 hok (by decide) rOk (by simp)
  exact ⟨hna.1, hna.2, hnn.1, hnn.2.1⟩

theorem findIdx?_eq_none_of_all (p : α → Bool) :
    ∀ (l : List α) (i : ℕ), (∀ a ∈ l, ¬ p a) → List.findIdx? p l i = none := by
  intro l
  induction l with
  | nil => intro i _; rfl
  | cons a l ih =>
    intro i h
    show (if p a then some i else List.findIdx? p l (i + 1)) = none
    rw [if_neg (h a (by simp))]
    exact ih (i + 1) fun b hb => h b (by simp [hb])

theorem findIdx?_append_of_none (p : α → Bool) :
    ∀ (l₁ l₂ : List α) (i : ℕ), (∀ a ∈ l₂, ¬ p a) →
      List.findIdx? p (l₁ ++ l₂) i = List.findIdx? p l₁ i := by
  intro l₁
  induction l₁ with
  | nil =>
    intro l₂ i h
    exact findIdx?_eq_none_of_all p l₂ i h
  | cons a l ih =>
    intro l₂ i h
    show (if p a then some i else List.findIdx? p (l ++ l₂) (i + 1))
      = (if p a then some i else List.findIdx? p l (i + 1))
    by_cases ha : p a
    · rw [if_pos ha, if_pos ha]
    · rw [if_neg ha, if_neg ha, ih l₂ (i + 1) h]

theorem findIdx?_some_lt (p : α → Bool) :
    ∀ (l : List α) (i j : ℕ), List.findIdx? p l i = some j → j < i + l.length := by
  intro l
  induction l with
  | nil => intro i j h; simp [List.findIdx?] at h
  | cons a l ih =>
    intro i j h
    rw [show List.findIdx? p (a :: l) i
        = (if p a then some i else List.findIdx? p l (i + 1)) from rfl] at h
    by_cases ha : p a
    · rw [if_pos ha] at h
      injection h with h
      subst h
      simp
    · rw [if_neg ha] at h
      have := ih (i + 1) j h
      simp only [List.length_cons]
      omega

theorem lookup_eq_none_of_not_fst (kv : List (String × String)) (k : String)
    (h : ∀ x ∈ kv, x.1 ≠ k) : kv.lookup k = none := by
  induction kv with
  | nil => rfl
  | cons x xs ih =>
    simp only [List.lookup]
    have hne : (k == x.1) = false := by
      have := h x (by simp)
      simp only [beq_eq_false_iff_ne, ne_eq]
      exact fun he => this he.symm
    rw [hne]
    exact ih fun y hy => h y (by simp [hy])

theorem resolvedHeaders_append (t : Table) (x : String) (cs : List Cell) :
    mplResolvedHeaders (appendCol t x cs) = mplResolvedHeaders t ++ [resolveMpl x] := by
  simp [mplResolvedHeaders, appendCol]

theorem requiredSubsetCanonical : ∀ c ∈ requiredColsSorted, c ∈ canonicalFields := by
  decide

theorem mplMissing_append (t : Table) (x : String) (cs : List Cell)
    (hx : resolveMpl x ∉ canonicalFields) :
    mplMissing (appendCol t x cs) = mplMissing t := by
  simp only [mplMissing]
  apply List.filter_congr
  intro c hc
  have hcanon : c ∈ canonicalFields := requiredSubsetCanonical c hc
  have hne : c ≠ resolveMpl x := fun he => hx (he ▸ hcanon)
  rw [decide_eq_decide, resolvedHeaders_append]
  simp [hne]

theorem colIdx_append (t : Table) (x : String) (cs : List Cell) (name : String)
    (hname : name ∈ canonicalFields) (hx : resolveMpl x ∉ canonicalFields) :
    colIdx (appendCol t x cs) name = colIdx t name := by
  rw [colIdx, colIdx, resolvedHeaders_append]
  apply findIdx?_append_of_none
  intro a ha
  rw [List.mem_singleton] at ha
  subst ha
  simp only [beq_iff_eq]
  exact fun he => hx (he ▸ hname)

theorem colIdx_lt (t : Table) (name : String) (i : ℕ)
    (h : colIdx t name = some i) : i < t.headers.length := by
  have := findIdx?_some_lt (· == name) (mplResolvedHeaders t) 0 i h
  simpa [mplResolvedHeaders] using this

theorem mkRecord_append (t : Table) (x : String) (cs : List Cell)
    (row : List Cell) (cell : Cell) (hrow : row.length = t.headers.length)
    (hx : resolveMpl x ∉ canonicalFields) :
    mkRecord (appendCol t x cs) (row ++ [cell]) = mkRecord t row := by
  have hcell : ∀ name, name ∈ canonicalFields →
      cellAt (row ++ [cell]) (colIdx (appendCol t x cs) name)
        = cellAt row (colIdx t name) := by
    intro name hname
    rw [colIdx_append t x cs name hname hx]
    cases hci : colIdx t name with
    | none => rfl
    | some i =>
      show (row ++ [cell]).getD i .blank = row.getD i .blank
      have hi : i < row.length := hrow ▸ colIdx_lt t name i hci
      simp [List.getD, List.getElem?_append, hi]
  have hopt : ∀ name, name ∈ canonicalFields →
      optCellAt (appendCol t x cs) (row ++ [cell]) name = optCellAt t row name := by
    intro name hname
    rw [optCellAt, optCellAt, colIdx_append t x cs name hname hx]
    cases hci : colIdx t name with
    | none => rfl
    | some i =>
      have hi : i < row.length := hrow ▸ colIdx_lt t name i hci
      simp [List.getD, List.getElem?_append, hi]
  simp only [mkRecord, Record.mk.injEq]
  exact ⟨congrArg coerceStr (hcell "month" (by decide)),
    congrArg coerceStr (hcell "brand" (by decide)),
    congrArg coerceStr (hcell "destination" (by decide)),
    congrArg coerceNum (hcell "spent_gbp" (by decide)),
    congrArg coerceInt (hcell "leads" (by decide)),
    congrArg coerceInt (hopt "messages" (by decide)),
    congrArg coerceInt (hopt "impressions" (by decide)),
    congrArg coerceInt (hopt "converted_leads" (by decide))⟩

theorem rows_map_append (t : Table) (x : String) (cs : List Cell)
    (hx : resolveMpl x ∉ canonicalFields) :
    ∀ (rows : List (List Cell)) (cells : List Cell),
      cells.length = rows.length →
      (∀ row ∈ rows, row.length = t.headers.length) →
      (rows.zipWith (fun row c => row ++ [c]) cells).map (mkRecord (appendCol t x cs))
        = rows.map (mkRecord t) := by
  intro rows
  induction rows with
  | nil => intro cells _ _; simp
  | cons row rows ih =>
    intro cells hlen hwf
    cases cells with
    | nil => simp at hlen
    | cons c cells =>
      simp only [List.zipWith_cons_cons, List.map_cons]
      rw [mkRecord_append t x cs row c (hwf row (by simp)) hx,
        ih cells (by simpa using hlen) fun r hr => hwf r (by simp [hr])]

/-- The input whose spend column is headed exactly "Spend". -/
def tSpend : Table :=
  ⟨["Month", "Brand", "Destination", "Spend", "Leads"],
   [[.str "April", .str "C", .str "Z", .num 9, .num 4]]⟩

/-- The record ingested from tSpend: the Spend column lands in spent_gbp. -/
def rSpend : Record := ⟨"April", "C", "Z", 9, 4, 0, 0, 0⟩

/-- Counterexample to C5: header matching is case-sensitive — the upper
case variant "SPEND" of the known alias "Spend" does not resolve to
spent_gbp in the matplotlib app, and the plotly app does not accept the
header "Spend" at all. -/
theorem C5_counterexample :
    resolveMpl "SPEND" = "SPEND" ∧ resolveMpl "SPEND" ≠ "spent_gbp" ∧
    resolveMpl "Spend" = "spent_gbp" ∧
    resolvePlotly "Spend" = "Spend" ∧ resolvePlotly "Spend" ≠ "spent_gbp" := by
  decide

/-- C5 amended: headers are whitespace-trimmed (but not case-normalized)
before an exact alias-table lookup; in the matplotlib app "Spend"
populates spent_gbp; unmatched headers pass through unchanged and a column
resolving to a non-canonical name never affects the ingested records. -/
theorem C5_alias_resolution (h : String) (t : Table) (x : String) (cs : List Cell)
    (hwf : ∀ row ∈ t.rows, row.length = t.headers.length)
    (hlen : cs.length = t.rows.length)
    (hx : resolveMpl x ∉ canonicalFields) :
    resolveMpl h = resolveMpl (pyStrip h) ∧
    (pyStrip h ∉ mplRenameMap.map Prod.fst → resolveMpl h = pyStrip h) ∧
    resolveMpl "Spend" = "spent_gbp" ∧
    mplIngest tSpend = .ok [rSpend] ∧
    mplIngest (appendCol t x cs) = mplIngest t := by
  refine ⟨by simp [resolveMpl, pyStrip_idem], ?_, by decide, ?_, ?_⟩
  · intro hnm
    have : mplRenameMap.lookup (pyStrip h) = none := by
      apply lookup_eq_none_of_not_fst
      intro y hy he
      exact hnm (he ▸ List.mem_map_of_mem Prod.fst hy)
    simp [resolveMpl, this]
  · have hmiss : mplMissing tSpend = [] := by decide
    have hrows : tSpend.rows.map (mkRecord tSpend) = [rSpend] := by decide
    simp [mplIngest, hmiss, hrows]
  · simp only [mplIngest, mplMissing_append t x cs hx]
    by_cases hm : mplMissing t = []
    · rw [if_pos hm, if_pos hm]
      show Except.ok ((t.rows.zipWith (fun row c => row ++ [c]) cs).map
        (mkRecord (appendCol t x cs))) = _
      rw [rows_map_append t x cs hx t.rows cs hlen hwf]
    · rw [if_neg hm, if_neg hm]

/-- Witness for C5 at concrete inputs: surrounding whitespace is ignored,
"Spend" is accepted, an unknown header passes through, and appending an
ignored extra column leaves ingestion unchanged. -/
theorem C5_witness :
    resolveMpl " Spend " = resolveMpl "Spend" ∧
    resolveMpl "Extra" = "Extra" ∧
    mplIngest tSpend = .ok [rSpend] ∧
    mplIngest (appendCol tOk "Extra" [.str "ignored"]) = mplIngest tOk := by
  have h := C5_alias_resolution " Spend " tOk "Extra" [.str "ignored"]
    (by decide) (by decide) (by decide)
  refine ⟨?_, ?_, h.2.2.2.1, h.2.2.2.2⟩
  · have h1 := h.1
    have : pyStrip " Spend " = "Spend" := by decide
    rw [this] at h1
    exact h1
  · have h2 := (C5_alias_resolution "Extra" tOk "Extra" [.str "ignored"]
      (by decide) (by decide) (by decide)).2.1 (by decide)
    have : pyStrip "Extra" = "Extra" := by decide
    rw [this] at h2
    exact h2

/-- Counterexample to C6: with months {"March", "Foo"} — not a subset of
the canonical set — the selector keeps only the canonical "March" and
drops "Foo", instead of the claimed lexical ordering of all values. -/
theorem C6_counterexample :
    availableMonths ["March", "Foo"] = ["March"] ∧
    ¬ (∀ m ∈ (["March", "Foo"] : List String), m ∈ monthOrder) ∧
    availableMonths ["March", "Foo"] ≠ sortedDedup ["March", "Foo"] ∧
    "Foo" ∉ availableMonths ["March", "Foo"] := by
  decide

/-- C6 amended: the canonical twelve-month ordering (restricted to the
months present) is used whenever at least one month value is canonical —
non-canonical values are then dropped — and the lexical ordering of the
distinct values is used only when no month value is canonical; when the
values are a subset of the canonical set nothing is dropped.  The plotly
app always keeps exactly the canonical months present. -/
theorem C6_month_ordering (months : List String) :
    ((∀ m ∈ months, m ∈ monthOrder) →
      availableMonths months = monthOrder.filter (fun m => m ∈ months) ∧
      ∀ m ∈ months, m ∈ availableMonths months) ∧
    ((∀ m ∈ months, m ∉ monthOrder) →
      availableMonths months = sortedDedup months ∧
      ∀ m ∈ months, m ∈ availableMonths months) ∧
    (monthOrder.filter (fun m => m ∈ months) ≠ [] →
      availableMonths months = monthOrder.filter (fun m => m ∈ months)) ∧
    plotlyAvailableMonths months = monthOrder.filter (fun m => m ∈ months) := by
  refine ⟨?_, ?_, ?_, ?_⟩
  · intro hsub
    by_cases hc : monthOrder.filter (fun m => m ∈ months) = []
    · have hnil : months = [] := by
        cases hm : months with
        | nil => rfl
        | cons m ms =>
          have h1 : m ∈ monthOrder := hsub m (by simp [hm])
          have h2 := List.filter_eq_nil_iff.mp hc m h1
          rw [hm] at h2
          simp at h2
      subst hnil
      exact ⟨by simp [availableMonths, sortedDedup], by simp⟩
    · constructor
      · simp [availableMonths, hc]
      · intro m hm
        have : m ∈ monthOrder.filter (fun m => m ∈ months) := by
          simp only [List.mem_filter, decide_eq_true_eq]
          exact ⟨hsub m hm, hm⟩
        simp only [availableMonths]
        rw [if_neg hc]
        exact this
  · intro hnone
    have hc : monthOrder.filter (fun m => m ∈ months) = [] := by
      apply List.filter_eq_nil_iff.mpr
      intro m hmo
      simp only [decide_eq_true_eq]
      exact fun hm => hnone m hm hmo
    constructor
    · simp [availableMonths, hc]
    · intro m hm
      simp only [availableMonths]
      rw [if_pos hc, mem_sortedDedup]
      exact hm
  · intro hne
    simp [availableMonths, hne]
  · have hfe : monthOrder.filter (fun m => m ∈ months.filter fun x => x ∈ monthOrder)
        = monthOrder.filter (fun m => m ∈ months) := by
      apply List.filter_congr
      intro m hm
      rw [decide_eq_decide]
      simp only [List.mem_filter, decide_eq_true_eq]
      exact ⟨fun h => h.1, fun h => ⟨h, hm⟩⟩
    by_cases hc : monthOrder.filter (fun m => m ∈ months) = []
    · have hcanonNil : months.filter (fun x => x ∈ monthOrder) = [] := by
        apply List.filter_eq_nil_iff.mpr
        intro m hm
        simp only [decide_eq_true_eq]
        intro hmo
        have := List.filter_eq_nil_iff.mp hc m hmo
        simp [hm] at this
      simp [plotlyAvailableMonths, hcanonNil, sortedDedup, hc]
    · simp only [plotlyAvailableMonths]
      rw [hfe, if_neg hc]

/-- Witness for C6: a canonical pair displays in canonical (not lexical)
order, an entirely non-canonical pair displays lexically sorted, and the
plotly selector drops the non-canonical value. -/
theorem C6_witness :
    availableMonths ["March", "February"] = ["February", "March"] ∧
    availableMonths ["Zeta", "Alpha"] = ["Alpha", "Zeta"] ∧
    plotlyAvailableMonths ["March", "Foo"] = ["March"] := by
  have h1 := ((C6_month_ordering ["March", "February"]).1 (by decide)).1
  have h2 := ((C6_month_ordering ["Zeta", "Alpha"]).2.1 (by decide)).1
  have h3 := (C6_month_ordering ["March", "Foo"]).2.2.2
  refine ⟨?_, ?_, ?_⟩
  · rw [h1]; decide
  · rw [h2]; decide
  · rw [h3]; decide

/-- An edit-stage row whose month carries surrounding whitespace. -/
def eUntrimmed : EditRow :=
  ⟨" March ", "A", "X", .num 10, .num 1, .num 0, .num 0, .num 0⟩

/-- Counterexample to C7: the edit stage does not re-run the string
coercion of the ingestion stage — an edited month keeps its surrounding
whitespace, where ingestion-style coercion would trim it. -/
theorem C7_counterexample :
    (editClean eUntrimmed).month = " March " ∧
    coerceStr (Cell.str " March ") = "March" ∧
    (" March " : String) ≠ "March" := by
  decide

theorem ratTrunc_zero : ratTrunc 0 = 0 := by decide

/-- C7 amended: the edit stage re-runs exactly the numeric coercion rules
of the ingestion stage on the five numeric fields of every caller-supplied
row (unparseable cells still become 0), but passes the string fields
month, brand and destination through unchanged. -/
theorem C7_edit_recoercion (e : EditRow) (s : String) :
    (editClean e).spent_gbp = coerceNum e.spent_gbp ∧
    (editClean e).leads = coerceInt e.leads ∧
    (editClean e).messages = coerceInt e.messages ∧
    (editClean e).impressions = coerceInt e.impressions ∧
    (editClean e).converted_leads = coerceInt e.converted_leads ∧
    (editClean e).month = e.month ∧
    (editClean e).brand = e.brand ∧
    (editClean e).destination = e.destination ∧
    (parseRat s = none →
      editClean { e with leads := .str s } = { editClean e with leads := 0 }) := by
  refine ⟨rfl, rfl, rfl, rfl, rfl, rfl, rfl, rfl, ?_⟩
  intro hp
  have h0 : coerceInt (Cell.str s) = 0 := by
    simp [coerceInt, coerceNum, hp, ratTrunc_zero]
  simp [editClean, h0]

/-- Witness for C7: the whitespace month survives editing unchanged, the
numeric cell is re-coerced, and an unparseable leads cell becomes 0. -/
theorem C7_witness :
    (editClean eUntrimmed).month = " March " ∧
    (editClean eUntrimmed).spent_gbp = 10 ∧
    editClean { eUntrimmed with leads := .str "N/A" }
      = { editClean eUntrimmed with leads := 0 } := by
  have h := C7_edit_recoercion eUntrimmed "N/A"
  refine ⟨h.2.2.2.2.2.1, ?_, h.2.2.2.2.2.2.2.2 (by decide)⟩
  rw [h.1]
  decide

/-- C8: the brand selector offers "All" followed by exactly the sorted
distinct brands of the month-narrowed subset, and the destination selector
offers "All" followed by exactly the sorted distinct destinations of the
month-and-brand-narrowed subset; a value absent from the current subset is
never offered. -/
theorem C8_progressive_filters (rs : List Record) (m b : String) :
    (brandOptions rs m).head? = some "All" ∧
    List.Sorted (fun a b => strLeB a b) (brandOptions rs m).tail ∧
    (brandOptions rs m).tail.Nodup ∧
    (∀ x, x ∈ (brandOptions rs m).tail ↔ ∃ r ∈ rs, r.month = m ∧ r.brand = x) ∧
    (destOptions rs m b).head? = some "All" ∧
    List.Sorted (fun a b => strLeB a b) (destOptions rs m b).tail ∧
    (destOptions rs m b).tail.Nodup ∧
    (∀ x, x ∈ (destOptions rs m b).tail ↔
      ∃ r ∈ narrowBrand (filterMonth rs m) b, r.destination = x) ∧
    (∀ r ∈ narrowBrand (filterMonth rs m) b, r.month = m ∧ (b ≠ "All" → r.brand = b)) := by
  refine ⟨rfl, sorted_sortedDedup _, nodup_sortedDedup _, ?_, rfl,
    sorted_sortedDedup _, nodup_sortedDedup _, ?_, ?_⟩
  · intro x
    show x ∈ sortedDedup ((filterMonth rs m).map Record.brand) ↔ _
    rw [mem_sortedDedup]
    simp only [List.mem_map, List.mem_filter, filterMonth, decide_eq_true_eq]
    constructor
    · rintro ⟨r, ⟨hr, hm⟩, hb⟩
      exact ⟨r, hr, hm, hb⟩
    · rintro ⟨r, hr, hm, hb⟩
      exact ⟨r, ⟨hr, hm⟩, hb⟩
  · intro x
    show x ∈ sortedDedup ((narrowBrand (filterMonth rs m) b).map Record.destination) ↔ _
    rw [mem_sortedDedup]
    exact List.mem_map
  · intro r hr
    by_cases hb : b = "All"
    · subst hb
      rw [narrowBrand, if_pos rfl] at hr
      simp only [filterMonth, List.mem_filter, decide_eq_true_eq] at hr
      exact ⟨hr.2, fun hne => absurd rfl hne⟩
    · rw [narrowBrand, if_neg hb] at hr
      simp only [List.mem_filter, filterMonth, decide_eq_true_eq] at hr
      exact ⟨hr.1.2, fun _ => hr.2⟩

/-- March row with brand A, destination X. -/
def rF1 : Record := ⟨"March", "A", "X", 1, 1, 0, 0, 0⟩

/-- March row with brand B, destination Y. -/
def rF2 : Record := ⟨"March", "B", "Y", 2, 2, 0, 0, 0⟩

/-- April row with brand C, destination Z. -/
def rF3 : Record := ⟨"April", "C", "Z", 3, 3, 0, 0, 0⟩

/-- A three-row dataset spanning two months. -/
def rsF : List Record := [rF1, rF2, rF3]

/-- Witness for C8: under month March, brand A is offered; under March and
brand A, destination X is offered; and every row of the March-and-A subset
is indeed a March row of brand A. -/
theorem C8_witness :
    "A" ∈ (brandOptions rsF "March").tail ∧
    "X" ∈ (destOptions rsF "March" "A").tail ∧
    rF1.month = "March" ∧ ("A" ≠ "All" → rF1.brand = "A") := by
  have h := C8_progressive_filters rsF "March" "A"
  refine ⟨(h.2.2.2.1 "A").mpr ⟨rF1, by decide, by decide, by decide⟩,
    (h.2.2.2.2.2.2.2.1 "X").mpr ⟨rF1, by decide, by decide⟩,
    h.2.2.2.2.2.2.2.2 rF1 (by decide)⟩

theorem ratTrunc_intCast (n : ℤ) : ratTrunc ((n : ℤ) : ℚ) = n := by
  rw [ratTrunc]
  rw [Rat.intCast_num, Rat.intCast_den]
  exact Int.tdiv_one n

theorem exportCSV_missing (rs : List Record) : mplMissing (exportCSV rs) = [] := by
  show mplMissing ⟨exportHeaders, []⟩ = []
  decide

theorem mkRecord_exportRow (rs : List Record) (r : Record) :
    mkRecord (exportCSV rs) (exportRow r) = trimRecord r := by
  show Record.mk _ _ _ _ _ _ _ _ = Record.mk _ _ _ _ _ _ _ _
  rw [Record.mk.injEq]
  exact ⟨rfl, rfl, rfl, rfl, ratTrunc_intCast r.leads, ratTrunc_intCast r.messages,
    ratTrunc_intCast r.impressions, ratTrunc_intCast r.converted_leads⟩

/-- The record whose month carries surrounding whitespace, as the edit
stage can produce (strings are not re-trimmed there). -/
def rU : Record := ⟨" March ", "A", "X", 10, 1, 0, 0, 0⟩

/-- Counterexample to C9: exporting a record whose month is " March " and
re-ingesting trims the month, so the cycle does not reproduce identical
values for all canonical fields. -/
theorem C9_counterexample :
    mplIngest (exportCSV [rU]) = .ok [trimRecord rU] ∧
    mplIngest (exportCSV [rU]) ≠ .ok [rU] ∧
    trimRecord rU ≠ rU := by
  have hmiss : mplMissing (exportCSV [rU]) = [] := by decide
  have hrows : (exportCSV [rU]).rows.map (mkRecord (exportCSV [rU]))
      = [trimRecord rU] := by decide
  have h1 : mplIngest (exportCSV [rU]) = .ok [trimRecord rU] := by
    simp [mplIngest, hmiss, hrows]
  refine ⟨h1, ?_, by decide⟩
  intro he
  rw [h1] at he
  have : [trimRecord rU] = [rU] := by
    injection he
  have : trimRecord rU = rU := by
    injection this
  exact absurd this (by decide)

/-- C9 amended: one export/import cycle trims the three string fields and
reproduces every other canonical field exactly; it is therefore the
identity on record sets whose strings are already trimmed (as freshly
ingested data is), and the cycle is idempotent from the first re-import
onward. -/
theorem C9_round_trip (rs rs₂ : List Record) :
    mplIngest (exportCSV rs) = .ok (rs.map trimRecord) ∧
    ((∀ r ∈ rs, trimRecord r = r) → mplIngest (exportCSV rs) = .ok rs) ∧
    (mplIngest (exportCSV rs) = .ok rs₂ → mplIngest (exportCSV rs₂) = .ok rs₂) := by
  have hbase : ∀ l : List Record, mplIngest (exportCSV l) = .ok (l.map trimRecord) := by
    intro l
    have hmiss := exportCSV_missing l
    have hrows : (exportCSV l).rows.map (mkRecord (exportCSV l)) = l.map trimRecord := by
      show (l.map exportRow).map (mkRecord (exportCSV l)) = l.map trimRecord
      rw [List.map_map]
      exact List.map_congr_left fun r _ => mkRecord_exportRow l r
    simp [mplIngest, hmiss, hrows]
  refine ⟨hbase rs, ?_, ?_⟩
  · intro htrim
    rw [hbase rs, List.map_congr_left htrim]
    simp
  · intro hok
    have h2 : rs.map trimRecord = rs₂ := by
      have := (hbase rs).symm.trans hok
      injection this
    rw [hbase rs₂, ← h2, List.map_map]
    have : ∀ r ∈ rs, (trimRecord ∘ trimRecord) r = trimRecord r :=
      fun r _ => trimRecord_idem r
    rw [List.map_congr_left this]

/-- Witness for C9: the already-trimmed record rOk round-trips to itself. -/
theorem C9_witness : mplIngest (exportCSV [rOk]) = .ok [rOk] := by
  exact (C9_round_trip [rOk] [rOk]).2.1 (by
    intro r hr
    rw [List.mem_singleton] at hr
    subst hr
    decide)

end Dashboard
